import Mathlib

/-!
Shallow embedding of the `micro_taskman` cooperative scheduler
(`src/unnamed/part_000`, `src/taskman/taskman.h`).

Conventions of the embedding:
* C function pointers are modelled as `Nat`, with `0` standing for the
  null pointer (the source uses `0` as the empty-slot sentinel).
* `uint32_t` values are `Nat` kept below `U32 = 2 ^ 32`; the wrap-safe
  unsigned subtraction `a - b` of the source is `sub32 a b`, and the
  wrapping increment `millis++` is `(millis + 1) % U32`.
* `uint8_t` fields that the source only ever assigns `0`/`1` and tests
  for truthiness (`isReady`, `active`, `taskExecuted`) are `Bool`.
* The module-level static arrays and counter become an explicit
  `TmState` record threaded through the operations.  The C local
  `static uint8_t taskExecuted` inside `tmUpdate` has static storage
  duration, so it is part of `TmState` as well.
* Callback invocations are observable effects: operations that may call
  callbacks also return the list of callback references invoked, in
  invocation order.  The idle hook invocation of `tmUpdate` is reported
  as a `Bool`.
-/

namespace Taskman

/-- `2 ^ 32`, the modulus of `uint32_t` arithmetic. -/
def U32 : Nat := 4294967296

/-- Wrap-safe unsigned subtraction `a - b` on `uint32_t` values
(both arguments assumed `< U32`). -/
def sub32 (a b : Nat) : Nat := (a + U32 - b) % U32

/-- `#define MAX_TASKS 10` -/
def MAX_TASKS : Nat := 10

/-- `#define MAX_TIMERS 5` -/
def MAX_TIMERS : Nat := 5

/-- `Task_s`: `{ taskFunc, period_ms, delay_ms, isReady }`. -/
structure Task where
  taskFunc : Nat
  period_ms : Nat
  delay_ms : Nat
  isReady : Bool
  deriving Repr, DecidableEq

/-- `OneShotTimer_s`: `{ active, start_time, delay, callback }`. -/
structure OneShotTimer where
  active : Bool
  start_time : Nat
  delay : Nat
  callback : Nat
  deriving Repr, DecidableEq

/-- The whole static state of the module: the task array, the timer
array, the `millis` counter, and `tmUpdate`'s static `taskExecuted`. -/
structure TmState where
  tasks : List Task
  timers : List OneShotTimer
  millis : Nat
  taskExecuted : Bool
  deriving Repr, DecidableEq

/-- A zero-initialised task slot (C static storage starts zeroed). -/
def emptyTask : Task := ⟨0, 0, 0, false⟩

/-- A zero-initialised timer slot. -/
def emptyTimer : OneShotTimer := ⟨false, 0, 0, 0⟩

/-- The zero-initialised task array `static Task_s tasks[MAX_TASKS]`. -/
def emptyTasks : List Task := List.replicate MAX_TASKS emptyTask

/-- The zero-initialised timer array `static OneShotTimer_s timers[MAX_TIMERS]`. -/
def emptyTimers : List OneShotTimer := List.replicate MAX_TIMERS emptyTimer

/-- The state at program start: all statics zero-initialised. -/
def initState : TmState := ⟨emptyTasks, emptyTimers, 0, false⟩

/-- The scan loop of `tmAddTask`: find the first slot with
`taskFunc == 0`, install the task there, and report its index. -/
def addTaskAux (func period : Nat) : List Task → Option (Nat × List Task)
  | [] => none
  | t :: rest =>
    if t.taskFunc = 0 then
      some (0, ⟨func, period, period, false⟩ :: rest)
    else
      match addTaskAux func period rest with
      | none => none
      | some (i, rest') => some (i + 1, t :: rest')

/-- `tmAddTask`: returns the slot index on success, `-1` if no slot with
`taskFunc == 0` exists. -/
def tmAddTask (func period : Nat) (ts : List Task) : Int × List Task :=
  match addTaskAux func period ts with
  | some (i, ts') => ((i : Int), ts')
  | none => (-1, ts)

/-- The scan loop of `tmUpdateTask`: find the first slot with
`taskFunc == func` and overwrite its timing fields. -/
def updateTaskAux (func period : Nat) : List Task → Option (List Task)
  | [] => none
  | t :: rest =>
    if t.taskFunc = func then
      some ({ t with period_ms := period, delay_ms := period, isReady := false } :: rest)
    else
      match updateTaskAux func period rest with
      | none => none
      | some rest' => some (t :: rest')

/-- `tmUpdateTask`: `0` on success, `-1` if no slot matches. -/
def tmUpdateTask (func period : Nat) (ts : List Task) : Int × List Task :=
  match updateTaskAux func period ts with
  | some ts' => (0, ts')
  | none => (-1, ts)

/-- The scan loop of `tmDeleteTask`: clear the first matching slot's
`taskFunc`. -/
def deleteTaskAux (func : Nat) : List Task → Option (List Task)
  | [] => none
  | t :: rest =>
    if t.taskFunc = func then
      some ({ t with taskFunc := 0 } :: rest)
    else
      match deleteTaskAux func rest with
      | none => none
      | some rest' => some (t :: rest')

/-- `tmDeleteTask`: `0` on success, `-1` if no slot matches. -/
def tmDeleteTask (func : Nat) (ts : List Task) : Int × List Task :=
  match deleteTaskAux func ts with
  | some ts' => (0, ts')
  | none => (-1, ts)

/-- The per-slot body of `tmTick`'s task loop: countdown while
`delay_ms > 0`; on hitting `0`, set `isReady` and reload `period_ms`. -/
def tickTask (t : Task) : Task :=
  if t.taskFunc ≠ 0 then
    if t.delay_ms > 0 then
      let d := t.delay_ms - 1
      if d = 0 then { t with delay_ms := t.period_ms, isReady := true }
      else { t with delay_ms := d }
    else t
  else t

/-- The expiry test of `tmTimerProcess` for one slot at clock `m`:
`active && (millis - start_time >= delay)`. -/
def timerFires (m : Nat) (t : OneShotTimer) : Bool :=
  t.active && decide (sub32 m t.start_time ≥ t.delay)

/-- One slot of `tmTimerProcess` at clock `m`: on expiry clear `active`
and invoke the callback if it is still present. -/
def processTimer (m : Nat) (t : OneShotTimer) : OneShotTimer × List Nat :=
  if timerFires m t then
    ({ t with active := false }, if t.callback ≠ 0 then [t.callback] else [])
  else (t, [])

/-- `tmTimerProcess` at clock `m`: process every slot, collecting the
invoked callbacks in slot order. -/
def tmTimerProcess (m : Nat) : List OneShotTimer → List OneShotTimer × List Nat
  | [] => ([], [])
  | t :: rest =>
    let pt := processTimer m t
    let pr := tmTimerProcess m rest
    (pt.1 :: pr.1, pt.2 ++ pr.2)

/-- `tmTick`: countdown pass over the tasks, then `tmTimerProcess` at the
current clock, then `millis++` (wrapping).  Returns the new state and
the callbacks invoked by timer processing. -/
def tmTick (s : TmState) : TmState × List Nat :=
  let tasks' := s.tasks.map tickTask
  let pr := tmTimerProcess s.millis s.timers
  (⟨tasks', pr.1, (s.millis + 1) % U32, s.taskExecuted⟩, pr.2)

/-- `n` consecutive `tmTick` calls, collecting all timer callbacks
invoked along the way. -/
def tickN : Nat → TmState → TmState × List Nat
  | 0, s => (s, [])
  | n + 1, s =>
    let p1 := tmTick s
    let p2 := tickN n p1.1
    (p2.1, p1.2 ++ p2.2)

/-- The task loop of `tmUpdate`: for every slot with a callback and
`isReady`, clear `isReady` and invoke the callback.  Returns the updated
slots, the invoked callbacks in slot order, and whether any ran. -/
def updateSlots : List Task → List Task × List Nat
  | [] => ([], [])
  | t :: rest =>
    let pr := updateSlots rest
    if t.taskFunc ≠ 0 ∧ t.isReady then
      ({ t with isReady := false } :: pr.1, t.taskFunc :: pr.2)
    else (t :: pr.1, pr.2)

/-- `tmUpdate`: one drain pass.  The C `static uint8_t taskExecuted`
persists across calls: it is read from the state, set to `1` whenever a
task runs, and `sIdleTask()` is invoked only when it is still `0` after
the pass.  Returns the new state, the invoked task callbacks, and
whether the idle hook was invoked. -/
def tmUpdate (s : TmState) : TmState × List Nat × Bool :=
  let pr := updateSlots s.tasks
  let exec := s.taskExecuted || !pr.2.isEmpty
  (⟨pr.1, s.timers, s.millis, exec⟩, pr.2, !exec)

/-- `tmDelay_ms` at clock `m`: if `millis - *timestamp >= delay`
(wrap-safe), return `true` and write the clock into the timestamp,
otherwise return `false` and leave it alone. -/
def tmDelay_ms (m ts delay : Nat) : Bool × Nat :=
  if sub32 m ts ≥ delay then (true, m) else (false, ts)

/-- First loop of `tmTimerStartOnce` at clock `m`: find a slot whose
`callback == func`; always overwrite `delay`, and only if the slot is
not active, activate it and stamp `start_time = millis`. -/
def startOnceUpdate (m delay func : Nat) : List OneShotTimer → Option (List OneShotTimer)
  | [] => none
  | t :: rest =>
    if t.callback = func then
      some ((if t.active then { t with delay := delay }
             else { t with delay := delay, active := true, start_time := m }) :: rest)
    else
      match startOnceUpdate m delay func rest with
      | none => none
      | some rest' => some (t :: rest')

/-- Second loop of `tmTimerStartOnce` at clock `m`: find the first slot
with `callback == 0` and install a fresh active timer there. -/
def startOnceInstall (m delay func : Nat) : List OneShotTimer → Option (List OneShotTimer)
  | [] => none
  | t :: rest =>
    if t.callback = 0 then
      some (⟨true, m, delay, func⟩ :: rest)
    else
      match startOnceInstall m delay func rest with
      | none => none
      | some rest' => some (t :: rest')

/-- `tmTimerStartOnce` at clock `m`: try the update scan, then the
install scan; `0` on success, `-1` if both fail. -/
def tmTimerStartOnce (m delay func : Nat) (ts : List OneShotTimer) :
    Int × List OneShotTimer :=
  match startOnceUpdate m delay func ts with
  | some ts' => (0, ts')
  | none =>
    match startOnceInstall m delay func ts with
    | some ts' => (0, ts')
    | none => (-1, ts)

/-- The scan loop of `tmTimerDelete`: clear the first matching slot's
`callback`. -/
def timerDeleteAux (func : Nat) : List OneShotTimer → Option (List OneShotTimer)
  | [] => none
  | t :: rest =>
    if t.callback = func then
      some ({ t with callback := 0 } :: rest)
    else
      match timerDeleteAux func rest with
      | none => none
      | some rest' => some (t :: rest')

/-- `tmTimerDelete`: `0` on success, `-1` if no slot matches. -/
def tmTimerDelete (func : Nat) (ts : List OneShotTimer) : Int × List OneShotTimer :=
  match timerDeleteAux func ts with
  | some ts' => (0, ts')
  | none => (-1, ts)

/-- Number of occupied task slots (those holding a callback reference). -/
def occupiedCount (ts : List Task) : Nat :=
  (ts.filter (fun t => t.taskFunc ≠ 0)).length

/-- A sequence of `tmAddTask` calls, one per callback in `fs`, collecting
the returned slot indices in call order. -/
def addAll (fs : List Nat) (p : Nat) (ts : List Task) : List Int × List Task :=
  match fs with
  | [] => ([], ts)
  | f :: rest =>
    let pr := tmAddTask f p ts
    let qr := addAll rest p pr.2
    (pr.1 :: qr.1, qr.2)

/-! ### Arithmetic lemmas about the wrap-safe subtraction -/

lemma sub32_self (a : Nat) : sub32 a a = 0 := by
  unfold sub32 U32; omega

lemma sub32_mod_add (m k : Nat) (hm : m < U32) (hk : k < U32) :
    sub32 ((m + k) % U32) m = k := by
  unfold sub32 U32 at *; omega

lemma sub32_elapsed (a e : Nat) (he : e < U32) :
    sub32 ((a + e) % U32) (a % U32) = e := by
  unfold sub32 U32 at *; omega

/-! ### Lemmas about the scan loops -/

lemma addTaskAux_none (func p : Nat) (ts : List Task)
    (h : ∀ u ∈ ts, u.taskFunc ≠ 0) : addTaskAux func p ts = none := by
  induction ts with
  | nil => rfl
  | cons t rest ih =>
    have ht : t.taskFunc ≠ 0 := h t (List.mem_cons_self t rest)
    have hrest : ∀ u ∈ rest, u.taskFunc ≠ 0 := fun u hu => h u (List.mem_cons_of_mem t hu)
    simp [addTaskAux, ht, ih hrest]

lemma addTaskAux_eq (func p : Nat) (pre : List Task) (t : Task) (post : List Task)
    (hpre : ∀ u ∈ pre, u.taskFunc ≠ 0) (ht : t.taskFunc = 0) :
    addTaskAux func p (pre ++ t :: post) =
      some (pre.length, pre ++ (⟨func, p, p, false⟩ : Task) :: post) := by
  induction pre with
  | nil => simp [addTaskAux, ht]
  | cons a pre ih =>
    have ha : a.taskFunc ≠ 0 := hpre a (List.mem_cons_self a pre)
    have hpre' : ∀ u ∈ pre, u.taskFunc ≠ 0 := fun u hu => hpre u (List.mem_cons_of_mem a hu)
    simp [addTaskAux, ha, ih hpre']

lemma updateTaskAux_none (func p : Nat) (ts : List Task)
    (h : ∀ u ∈ ts, u.taskFunc ≠ func) : updateTaskAux func p ts = none := by
  induction ts with
  | nil => rfl
  | cons t rest ih =>
    have ht : t.taskFunc ≠ func := h t (List.mem_cons_self t rest)
    have hrest : ∀ u ∈ rest, u.taskFunc ≠ func := fun u hu => h u (List.mem_cons_of_mem t hu)
    simp [updateTaskAux, ht, ih hrest]

lemma updateTaskAux_eq (func p : Nat) (pre : List Task) (t : Task) (post : List Task)
    (hpre : ∀ u ∈ pre, u.taskFunc ≠ func) (ht : t.taskFunc = func) :
    updateTaskAux func p (pre ++ t :: post) =
      some (pre ++ { t with period_ms := p, delay_ms := p, isReady := false } :: post) := by
  induction pre with
  | nil => simp [updateTaskAux, ht]
  | cons a pre ih =>
    have ha : a.taskFunc ≠ func := hpre a (List.mem_cons_self a pre)
    have hpre' : ∀ u ∈ pre, u.taskFunc ≠ func := fun u hu => hpre u (List.mem_cons_of_mem a hu)
    simp [updateTaskAux, ha, ih hpre']

lemma updateTaskAux_isSome (func p : Nat) (ts : List Task) :
    (updateTaskAux func p ts).isSome ↔ ∃ u ∈ ts, u.taskFunc = func := by
  induction ts with
  | nil => simp [updateTaskAux]
  | cons t rest ih =>
    by_cases ht : t.taskFunc = func
    · simp [updateTaskAux, ht]
    · rcases h : updateTaskAux func p rest with _ | rest'
      · simp [updateTaskAux, ht, h]
        have := ih
        simp [h] at this
        exact fun u hu => (this u hu)
      · simp [updateTaskAux, ht, h]
        have := ih
        simp [h] at this
        exact this

lemma startOnceUpdate_none (m d func : Nat) (ts : List OneShotTimer)
    (h : ∀ u ∈ ts, u.callback ≠ func) : startOnceUpdate m d func ts = none := by
  induction ts with
  | nil => rfl
  | cons t rest ih =>
    have ht : t.callback ≠ func := h t (List.mem_cons_self t rest)
    have hrest : ∀ u ∈ rest, u.callback ≠ func := fun u hu => h u (List.mem_cons_of_mem t hu)
    simp [startOnceUpdate, ht, ih hrest]

lemma startOnceUpdate_eq (m d func : Nat) (pre : List OneShotTimer) (t : OneShotTimer)
    (post : List OneShotTimer)
    (hpre : ∀ u ∈ pre, u.callback ≠ func) (ht : t.callback = func) :
    startOnceUpdate m d func (pre ++ t :: post) =
      some (pre ++ (if t.active then { t with delay := d }
                    else { t with delay := d, active := true, start_time := m }) :: post) := by
  induction pre with
  | nil => simp [startOnceUpdate, ht]
  | cons a pre ih =>
    have ha : a.callback ≠ func := hpre a (List.mem_cons_self a pre)
    have hpre' : ∀ u ∈ pre, u.callback ≠ func := fun u hu => hpre u (List.mem_cons_of_mem a hu)
    simp [startOnceUpdate, ha, ih hpre']

/-! ### Lemmas about ticking -/

lemma tickTask_delay_zero (t : Task) (h : t.delay_ms = 0) : tickTask t = t := by
  unfold tickTask
  rw [h]
  simp

lemma tickTask_emptyTask : tickTask emptyTask = emptyTask := by
  simp [tickTask, emptyTask]

lemma tmTimerProcess_inactive (m : Nat) (ts : List OneShotTimer)
    (h : ∀ t ∈ ts, t.active = false) : tmTimerProcess m ts = (ts, []) := by
  induction ts with
  | nil => rfl
  | cons t rest ih =>
    have ht : t.active = false := h t (List.mem_cons_self t rest)
    have hrest : ∀ u ∈ rest, u.active = false := fun u hu => h u (List.mem_cons_of_mem t hu)
    simp [tmTimerProcess, processTimer, timerFires, ht, ih hrest]

lemma tmTimerProcess_emptyTimers (m : Nat) :
    tmTimerProcess m emptyTimers = (emptyTimers, []) := by
  apply tmTimerProcess_inactive
  intro t ht
  simp [emptyTimers, List.eq_of_mem_replicate ht, emptyTimer]

lemma tickN_add (a b : Nat) (s : TmState) :
    tickN (a + b) s =
      ((tickN b (tickN a s).1).1, (tickN a s).2 ++ (tickN b (tickN a s).1).2) := by
  induction a generalizing s with
  | zero => simp [tickN]
  | succ a ih =>
    have : a + 1 + b = (a + b) + 1 := by omega
    rw [this]
    simp only [tickN]
    rw [ih]
    simp [List.append_assoc]

lemma tickN_tasks (n : Nat) (s : TmState) :
    (tickN n s).1.tasks = s.tasks.map (fun t => tickTask^[n] t) := by
  induction n generalizing s with
  | zero => simp [tickN]
  | succ n ih =>
    simp only [tickN]
    rw [ih]
    simp only [tmTick, List.map_map]
    rfl

lemma tickN_inactive (n : Nat) (s : TmState)
    (h : ∀ t ∈ s.timers, t.active = false) :
    (tickN n s).2 = [] ∧ (tickN n s).1.timers = s.timers := by
  induction n generalizing s with
  | zero => simp [tickN]
  | succ n ih =>
    simp only [tickN]
    have hp : tmTimerProcess s.millis s.timers = (s.timers, []) :=
      tmTimerProcess_inactive s.millis s.timers h
    have h1 : (tmTick s).1.timers = s.timers := by simp [tmTick, hp]
    have h2 : (tmTick s).2 = [] := by simp [tmTick, hp]
    have := ih (tmTick s).1 (by rw [h1]; exact h)
    refine ⟨?_, ?_⟩
    · rw [h2, this.1]
      rfl
    · rw [this.2, h1]

lemma addAll_fill (fs : List Nat) (p : Nat) (occ : List Task) (r : Nat)
    (hocc : ∀ u ∈ occ, u.taskFunc ≠ 0) (hfs : ∀ x ∈ fs, x ≠ 0) (hr : fs.length ≤ r) :
    addAll fs p (occ ++ List.replicate r emptyTask) =
      ((List.range fs.length).map (fun i => ((occ.length + i : Nat) : Int)),
       occ ++ fs.map (fun f => (⟨f, p, p, false⟩ : Task)) ++
         List.replicate (r - fs.length) emptyTask) := by
  induction fs generalizing occ r with
  | nil => simp [addAll]
  | cons f fs ih =>
    cases r with
    | zero => simp at hr
    | succ r =>
      have hrep : List.replicate (r + 1) emptyTask = emptyTask :: List.replicate r emptyTask :=
        rfl
      have hadd : tmAddTask f p (occ ++ List.replicate (r + 1) emptyTask) =
          ((occ.length : Int), occ ++ (⟨f, p, p, false⟩ : Task) :: List.replicate r emptyTask) := by
        rw [hrep]
        simp [tmAddTask, addTaskAux_eq f p occ emptyTask (List.replicate r emptyTask) hocc rfl]
      have hocc' : ∀ u ∈ occ ++ [(⟨f, p, p, false⟩ : Task)], u.taskFunc ≠ 0 := by
        intro u hu
        rcases List.mem_append.mp hu with h | h
        · exact hocc u h
        · rw [List.mem_singleton.mp h]
          exact hfs f (List.mem_cons_self f fs)
      have hfs' : ∀ x ∈ fs, x ≠ 0 := fun x hx => hfs x (List.mem_cons_of_mem f hx)
      have hr' : fs.length ≤ r := by simpa using hr
      have hstep := ih (occ ++ [(⟨f, p, p, false⟩ : Task)]) r hocc' hfs' hr'
      simp only [addAll, hadd]
      rw [List.append_cons occ _ (List.replicate r emptyTask), hstep]
      rw [Prod.ext_iff]
      refine ⟨?_, ?_⟩
      · simp only [List.length_cons, List.range_succ_eq_map, List.map_cons, List.map_map,
          List.length_append, List.length_singleton, Nat.add_zero]
        refine List.cons_eq_cons.mpr ⟨rfl, ?_⟩
        apply List.map_congr_left
        intro i _
        simp only [Function.comp_apply, List.length_nil]
        congr 1
        omega
      · have hsub : r + 1 - (fs.length + 1) = r - fs.length := by omega
        simp only [List.length_cons, List.map_cons, hsub]
        simp [List.append_assoc]

lemma emptyTasks_tick : emptyTasks.map tickTask = emptyTasks := by
  simp [emptyTasks, List.map_replicate, tickTask_emptyTask]

lemma tmTimerProcess_cons (m : Nat) (t : OneShotTimer) (rest : List OneShotTimer) :
    tmTimerProcess m (t :: rest) =
      ((processTimer m t).1 :: (tmTimerProcess m rest).1,
       (processTimer m t).2 ++ (tmTimerProcess m rest).2) := rfl

lemma tmTimerProcess_replicate (m n : Nat) :
    tmTimerProcess m (List.replicate n emptyTimer) = (List.replicate n emptyTimer, []) :=
  tmTimerProcess_inactive _ _ (fun t ht => by rw [List.eq_of_mem_replicate ht]; rfl)

lemma startOnce_fresh (m D f : Nat) (hf : f ≠ 0) :
    tmTimerStartOnce m D f emptyTimers =
      (0, (⟨true, m, D, f⟩ : OneShotTimer) :: List.replicate 4 emptyTimer) := by
  have hnone : startOnceUpdate m D f emptyTimers = none := by
    apply startOnceUpdate_none
    intro u hu
    rw [List.eq_of_mem_replicate hu]
    exact fun hc => hf hc.symm
  simp only [tmTimerStartOnce, hnone]
  simp [startOnceInstall, emptyTimers, emptyTimer, List.replicate]

lemma tickN_armed (k j m D f : Nat) (b : Bool) (hm : m < U32) (hD : D < U32)
    (hjk : j + k ≤ D) :
    tickN k ⟨emptyTasks, (⟨true, m, D, f⟩ : OneShotTimer) :: List.replicate 4 emptyTimer,
        (m + j) % U32, b⟩ =
      (⟨emptyTasks, (⟨true, m, D, f⟩ : OneShotTimer) :: List.replicate 4 emptyTimer,
        (m + (j + k)) % U32, b⟩, []) := by
  induction k generalizing j with
  | zero => simp [tickN]
  | succ k ih =>
    have hfire : timerFires ((m + j) % U32) ⟨true, m, D, f⟩ = false := by
      simp only [timerFires]
      rw [sub32_mod_add m j hm (by omega)]
      simp only [Bool.true_and, decide_eq_false_iff_not]
      omega
    have hmil : ((m + j) % U32 + 1) % U32 = (m + (j + 1)) % U32 := by
      rw [Nat.mod_add_mod, Nat.add_assoc]
    have hproc : tmTimerProcess ((m + j) % U32)
        ((⟨true, m, D, f⟩ : OneShotTimer) :: List.replicate 4 emptyTimer) =
        ((⟨true, m, D, f⟩ : OneShotTimer) :: List.replicate 4 emptyTimer, []) := by
      rw [tmTimerProcess_cons, tmTimerProcess_replicate]
      simp [processTimer, hfire]
    have hstep : tmTick ⟨emptyTasks,
        (⟨true, m, D, f⟩ : OneShotTimer) :: List.replicate 4 emptyTimer, (m + j) % U32, b⟩ =
        (⟨emptyTasks, (⟨true, m, D, f⟩ : OneShotTimer) :: List.replicate 4 emptyTimer,
          (m + (j + 1)) % U32, b⟩, []) := by
      simp only [tmTick]
      rw [emptyTasks_tick, hproc, hmil]
    have hrest := ih (j + 1) (by omega)
    simp only [tickN, hstep]
    rw [hrest]
    have : j + 1 + k = j + (k + 1) := by omega
    rw [this]
    simp

lemma tick_armed_fire (m D f : Nat) (b : Bool) (hm : m < U32) (hD : D < U32) (hf : f ≠ 0) :
    tmTick ⟨emptyTasks, (⟨true, m, D, f⟩ : OneShotTimer) :: List.replicate 4 emptyTimer,
        (m + D) % U32, b⟩ =
      (⟨emptyTasks, (⟨false, m, D, f⟩ : OneShotTimer) :: List.replicate 4 emptyTimer,
        ((m + D) % U32 + 1) % U32, b⟩, [f]) := by
  have hfire : timerFires ((m + D) % U32) ⟨true, m, D, f⟩ = true := by
    simp [timerFires, sub32_mod_add m D hm hD]
  have hproc : tmTimerProcess ((m + D) % U32)
      ((⟨true, m, D, f⟩ : OneShotTimer) :: List.replicate 4 emptyTimer) =
      ((⟨false, m, D, f⟩ : OneShotTimer) :: List.replicate 4 emptyTimer, [f]) := by
    rw [tmTimerProcess_cons, tmTimerProcess_replicate]
    simp [processTimer, hfire, hf]
  simp only [tmTick]
  rw [emptyTasks_tick, hproc]

/-! ### Claim theorems -/

/-- C6: `tmDelay_ms` returns `true` and writes the current clock into the
timestamp exactly when the wrap-safe unsigned difference
`(clock - timestamp) % 2^32` is at least the delay, and otherwise returns
`false` leaving the timestamp unmodified.  Writing the clock as
`(timestamp + e) % 2^32` for the absolute elapsed time `e < 2^32` shows
the comparison triggers at the correct relative offset even when the
counter has wrapped once between the stored timestamp and the check. -/
theorem tmDelay_ms_spec (c t D : Nat) (ht : t < U32) :
    (tmDelay_ms c t D = if sub32 c t ≥ D then (true, c) else (false, t)) ∧
    (∀ e, e < U32 → c = (t + e) % U32 → ((tmDelay_ms c t D).1 = true ↔ e ≥ D)) := by
  refine ⟨rfl, ?_⟩
  intro e he hc
  subst hc
  have hs : sub32 ((t + e) % U32) t = e := by
    have := sub32_elapsed t e he
    rwa [Nat.mod_eq_of_lt ht] at this
  simp only [tmDelay_ms, hs]
  split_ifs with h
  · simpa using h
  · simpa using h

/-- Witness for C6 at a clock that has wrapped: the timestamp was taken
at `4294967291`, ten ticks later the clock reads `5`, and a delay of `7`
has elapsed. -/
theorem tmDelay_ms_spec_witness :
    4294967291 < U32 ∧
    ((tmDelay_ms 5 4294967291 7 = if sub32 5 4294967291 ≥ 7 then (true, 5) else (false, 4294967291)) ∧
     (∀ e, e < U32 → 5 = (4294967291 + e) % U32 → ((tmDelay_ms 5 4294967291 7).1 = true ↔ e ≥ 7))) :=
  ⟨by norm_num [U32], tmDelay_ms_spec 5 4294967291 7 (by norm_num [U32])⟩

/-- C9: a task slot holding a callback with `period_ms = 0` (as installed
by `tmAddTask f 0`, which sets `delay_ms = 0` and `isReady = false`) is a
fixed point of the tick countdown: after any number of `tmTick` calls the
slot is unchanged, so its ready flag is never set — the decrement branch
is guarded by `delay_ms > 0` and the counter stays at `0`. -/
theorem period_zero_never_ready (s : TmState) (n i f : Nat)
    (h : s.tasks.get? i = some ⟨f, 0, 0, false⟩) :
    (tickN n s).1.tasks.get? i = some ⟨f, 0, 0, false⟩ := by
  rw [tickN_tasks, List.get?_map, h]
  simp only [Option.map_some']
  rw [Function.iterate_fixed (tickTask_delay_zero _ rfl) n]

/-- Witness for C9: a concrete table whose slot 0 holds a `period_ms = 0`
task, ticked three times. -/
theorem period_zero_never_ready_witness :
    (⟨(⟨5, 0, 0, false⟩ : Task) :: List.replicate 9 emptyTask, emptyTimers, 0, false⟩ :
        TmState).tasks.get? 0 = some ⟨5, 0, 0, false⟩ ∧
    (tickN 3 ⟨(⟨5, 0, 0, false⟩ : Task) :: List.replicate 9 emptyTask, emptyTimers, 0,
        false⟩).1.tasks.get? 0 = some ⟨5, 0, 0, false⟩ :=
  ⟨rfl, period_zero_never_ready _ 3 0 5 rfl⟩

/-- C10: `tmAddTask` called with the null callback reference on a table
with a free slot returns the index of the first free slot (a
non-negative, success-shaped result), yet the slot's callback field stays
`0`, so the slot remains free and the number of occupied slots is
unchanged: no invocable task was registered despite the non-error
return value. -/
theorem addTask_null_slot (p : Nat) (pre post : List Task) (t : Task)
    (hpre : ∀ u ∈ pre, u.taskFunc ≠ 0) (ht : t.taskFunc = 0) :
    tmAddTask 0 p (pre ++ t :: post) =
      ((pre.length : Int), pre ++ (⟨0, p, p, false⟩ : Task) :: post) ∧
    (0 : Int) ≤ (pre.length : Int) ∧
    occupiedCount (pre ++ (⟨0, p, p, false⟩ : Task) :: post) =
      occupiedCount (pre ++ t :: post) := by
  refine ⟨?_, Int.ofNat_nonneg _, ?_⟩
  · simp [tmAddTask, addTaskAux_eq 0 p pre t post hpre ht]
  · simp [occupiedCount, List.filter_append, List.filter_cons, ht]

/-- Witness for C10: one occupied slot, then a free one; the null add
reports index 1 and slot 1 stays free. -/
theorem addTask_null_slot_witness :
    (∀ u ∈ [(⟨3, 9, 9, false⟩ : Task)], u.taskFunc ≠ 0) ∧
    (⟨0, 0, 0, false⟩ : Task).taskFunc = 0 ∧
    (tmAddTask 0 7 ([(⟨3, 9, 9, false⟩ : Task)] ++ (⟨0, 0, 0, false⟩ : Task) :: []) =
       ((1 : Int), [(⟨3, 9, 9, false⟩ : Task)] ++ (⟨0, 7, 7, false⟩ : Task) :: []) ∧
     (0 : Int) ≤ ((1 : Int)) ∧
     occupiedCount ([(⟨3, 9, 9, false⟩ : Task)] ++ (⟨0, 7, 7, false⟩ : Task) :: []) =
       occupiedCount ([(⟨3, 9, 9, false⟩ : Task)] ++ (⟨0, 0, 0, false⟩ : Task) :: [])) :=
  ⟨by decide, rfl, addTask_null_slot 7 _ _ _ (by decide) rfl⟩

/-- C5 counterexample: with the null argument `f = 0` on the empty table,
no occupied slot's callback equals `f`, yet `tmUpdateTask` returns `0`
(success) and modifies the table — refuting the claim's "in every other
case it returns NotFound (-1) and leaves the table unchanged". -/
theorem updateTask_null_ce :
    (∀ u ∈ emptyTasks, u.taskFunc = 0) ∧
    (tmUpdateTask 0 5 emptyTasks).1 = 0 ∧
    tmUpdateTask 0 5 emptyTasks ≠ (-1, emptyTasks) ∧
    (tmUpdateTask 0 5 emptyTasks).2 ≠ emptyTasks := by decide

/-- C5 amended: for every table state and NON-NULL callback argument `f`,
`tmUpdateTask f p` succeeds (returns `0`) iff some occupied slot's
callback reference equals `f`; it operates on the first such slot,
overwriting `period_ms`, resetting `delay_ms = period_ms` and clearing
`isReady`; if no slot matches it returns `-1` and leaves the table
unchanged. -/
theorem updateTask_spec (f p : Nat) (ts : List Task) (hf : f ≠ 0) :
    ((tmUpdateTask f p ts).1 = 0 ↔ ∃ u ∈ ts, u.taskFunc ≠ 0 ∧ u.taskFunc = f) ∧
    ((∀ u ∈ ts, u.taskFunc ≠ f) → tmUpdateTask f p ts = (-1, ts)) ∧
    (∀ pre t post, ts = pre ++ t :: post → (∀ u ∈ pre, u.taskFunc ≠ f) →
      t.taskFunc = f →
      tmUpdateTask f p ts =
        (0, pre ++ { t with period_ms := p, delay_ms := p, isReady := false } :: post)) := by
  have hiff := updateTaskAux_isSome f p ts
  refine ⟨?_, ?_, ?_⟩
  · rcases h : updateTaskAux f p ts with _ | ts'
    · rw [h] at hiff
      simp only [Option.isSome_none, Bool.false_eq_true, false_iff] at hiff
      simp only [tmUpdateTask, h]
      constructor
      · intro hcontra
        exact absurd hcontra (by decide)
      · rintro ⟨u, hu, -, hueq⟩
        exact absurd ⟨u, hu, hueq⟩ hiff
    · rw [h] at hiff
      simp only [Option.isSome_some, true_iff] at hiff
      simp only [tmUpdateTask, h]
      obtain ⟨u, hu, hueq⟩ := hiff
      exact ⟨fun _ => ⟨u, hu, hueq ▸ hf, hueq⟩, fun _ => trivial⟩
  · intro h
    simp [tmUpdateTask, updateTaskAux_none f p ts h]
  · rintro pre t post rfl hpre ht
    simp [tmUpdateTask, updateTaskAux_eq f p pre t post hpre ht]

/-- Witness for C5's amended theorem: a two-slot table whose second slot
holds callback `4`. -/
theorem updateTask_spec_witness :
    (4 : Nat) ≠ 0 ∧
    (((tmUpdateTask 4 6 [⟨3, 1, 1, true⟩, ⟨4, 2, 2, true⟩]).1 = 0 ↔
        ∃ u ∈ [(⟨3, 1, 1, true⟩ : Task), ⟨4, 2, 2, true⟩], u.taskFunc ≠ 0 ∧ u.taskFunc = 4) ∧
     ((∀ u ∈ [(⟨3, 1, 1, true⟩ : Task), ⟨4, 2, 2, true⟩], u.taskFunc ≠ 4) →
        tmUpdateTask 4 6 [⟨3, 1, 1, true⟩, ⟨4, 2, 2, true⟩] =
          (-1, [⟨3, 1, 1, true⟩, ⟨4, 2, 2, true⟩])) ∧
     (∀ pre t post, [(⟨3, 1, 1, true⟩ : Task), ⟨4, 2, 2, true⟩] = pre ++ t :: post →
        (∀ u ∈ pre, u.taskFunc ≠ 4) → t.taskFunc = 4 →
        tmUpdateTask 4 6 [⟨3, 1, 1, true⟩, ⟨4, 2, 2, true⟩] =
          (0, pre ++ { t with period_ms := 6, delay_ms := 6, isReady := false } :: post))) :=
  ⟨by decide, updateTask_spec 4 6 [⟨3, 1, 1, true⟩, ⟨4, 2, 2, true⟩] (by decide)⟩

/-- C8: every `tmTick` call increments the clock by exactly 1 (wrapping),
the new task array is the countdown pass over the old one, and the timer
array and fired callbacks are those of `tmTimerProcess` evaluated at the
OLD clock value — the value from the start of the tick.  Consequently a
timer armed at the current clock with delay 1 does not fire during the
very tick that advances the clock to `start + 1`: the expiry comparison
reads the pre-increment clock, the same counter `tmTimerStartOnce`
recorded at arm time. -/
theorem tick_clock_order (s : TmState) (m f : Nat) (b : Bool) :
    ((tmTick s).1.millis = (s.millis + 1) % U32 ∧
     (tmTick s).1.tasks = s.tasks.map tickTask ∧
     (tmTick s).1.timers = (tmTimerProcess s.millis s.timers).1 ∧
     (tmTick s).2 = (tmTimerProcess s.millis s.timers).2) ∧
    (tmTick ⟨emptyTasks, (⟨true, m, 1, f⟩ : OneShotTimer) :: List.replicate 4 emptyTimer,
        m, b⟩).2 = [] := by
  refine ⟨⟨rfl, rfl, rfl, rfl⟩, ?_⟩
  simp [tmTick, tmTimerProcess, processTimer, timerFires, sub32_self, emptyTimer,
    List.replicate]

/-- C1 (code-bug exhibit): `tmUpdate` keeps its `taskExecuted` flag in a
C `static` local that is set when any task runs and never reset.  In the
scenario below the first `tmUpdate` runs the ready task (idle hook
correctly not invoked), after which no task is ready — yet the second
`tmUpdate` still does not invoke the idle hook, because the latch from
the first call persists.  A fresh scheduler with nothing ready does
invoke it. -/
theorem update_idle_latch :
    (tmUpdate ⟨(tmAddTask 1 1 emptyTasks).2, emptyTimers, 0, false⟩).2.2 = true ∧
    ((tmUpdate (tmTick ⟨(tmAddTask 1 1 emptyTasks).2, emptyTimers, 0, false⟩).1).2.1 = [1] ∧
     (tmUpdate (tmTick ⟨(tmAddTask 1 1 emptyTasks).2, emptyTimers, 0, false⟩).1).2.2 = false) ∧
    (∀ t ∈ (tmUpdate (tmTick ⟨(tmAddTask 1 1 emptyTasks).2, emptyTimers, 0,
        false⟩).1).1.tasks, t.isReady = false) ∧
    ((tmUpdate (tmUpdate (tmTick ⟨(tmAddTask 1 1 emptyTasks).2, emptyTimers, 0,
        false⟩).1).1).2.1 = [] ∧
     (tmUpdate (tmUpdate (tmTick ⟨(tmAddTask 1 1 emptyTasks).2, emptyTimers, 0,
        false⟩).1).1).2.2 = false) := by decide

/-- C7: starting from the empty task table, ten `tmAddTask` calls with
distinct non-null callback references return the slot indices 0 through 9
in order, and an eleventh call returns `-1` (table full) leaving the
table unchanged. -/
theorem addTask_capacity (fs : List Nat) (g p : Nat) (hlen : fs.length = 10)
    (hfs : ∀ x ∈ fs, x ≠ 0) (hg : g ≠ 0)
    (hdist : (fs ++ [g]).Pairwise (fun a b => a ≠ b)) :
    (addAll fs p emptyTasks).1 = [0, 1, 2, 3, 4, 5, 6, 7, 8, 9] ∧
    tmAddTask g p (addAll fs p emptyTasks).2 = (-1, (addAll fs p emptyTasks).2) := by
  have hfill := addAll_fill fs p [] 10 (by simp) hfs (by rw [hlen])
  rw [List.nil_append] at hfill
  have hempty : emptyTasks = List.replicate 10 emptyTask := rfl
  rw [← hempty] at hfill
  constructor
  · rw [hfill, hlen]
    have hval : ((List.range 10).map (fun i => ((([] : List Task).length + i : Nat) : Int))) =
        [0, 1, 2, 3, 4, 5, 6, 7, 8, 9] := by decide
    exact hval
  · rw [hfill]
    simp only [hlen, Nat.sub_self, List.replicate_zero, List.append_nil, List.nil_append]
    have hfull : ∀ u ∈ fs.map (fun f => (⟨f, p, p, false⟩ : Task)), u.taskFunc ≠ 0 := by
      intro u hu
      obtain ⟨x, hx, rfl⟩ := List.mem_map.mp hu
      exact hfs x hx
    simp [tmAddTask, addTaskAux_none g p _ hfull]

/-- Witness for C7 with callbacks 1..10 and an eleventh callback 11. -/
theorem addTask_capacity_witness :
    ([1, 2, 3, 4, 5, 6, 7, 8, 9, 10] : List Nat).length = 10 ∧
    (∀ x ∈ ([1, 2, 3, 4, 5, 6, 7, 8, 9, 10] : List Nat), x ≠ 0) ∧
    (11 : Nat) ≠ 0 ∧
    (([1, 2, 3, 4, 5, 6, 7, 8, 9, 10] : List Nat) ++ [11]).Pairwise (fun a b => a ≠ b) ∧
    ((addAll [1, 2, 3, 4, 5, 6, 7, 8, 9, 10] 5 emptyTasks).1 =
        [0, 1, 2, 3, 4, 5, 6, 7, 8, 9] ∧
     tmAddTask 11 5 (addAll [1, 2, 3, 4, 5, 6, 7, 8, 9, 10] 5 emptyTasks).2 =
       (-1, (addAll [1, 2, 3, 4, 5, 6, 7, 8, 9, 10] 5 emptyTasks).2)) :=
  ⟨by decide, by decide, by decide, by decide,
   addTask_capacity [1, 2, 3, 4, 5, 6, 7, 8, 9, 10] 11 5 (by decide) (by decide)
     (by decide) (by decide)⟩

/-- C4: repeating `tmTimerStartOnce` for a callback already present in
the timer table always overwrites the slot's `delay` with the new value
`D2`; only if the slot is not active does it also reset `start_time` to
the current clock and set `active`.  For an already-active timer the
original arm time is preserved, and with the new delay installed the
slot's expiry test fires exactly when the wrap-safe elapsed time from
the ORIGINAL `start_time` reaches `D2` — in particular at the clock
value `start_time + D2`. -/
theorem startOnce_rearm (m D2 f : Nat) (pre post : List OneShotTimer) (t : OneShotTimer)
    (hf : f ≠ 0) (hpre : ∀ u ∈ pre, u.callback ≠ f) (ht : t.callback = f)
    (hs : t.start_time < U32) (hD : D2 < U32) :
    (tmTimerStartOnce m D2 f (pre ++ t :: post) =
       (0, pre ++ (if t.active then { t with delay := D2 }
                   else { t with delay := D2, active := true, start_time := m }) :: post)) ∧
    (t.active = true →
      (∀ c, timerFires c { t with delay := D2 } = decide (sub32 c t.start_time ≥ D2)) ∧
      timerFires ((t.start_time + D2) % U32) { t with delay := D2 } = true) := by
  refine ⟨?_, fun ha => ⟨?_, ?_⟩⟩
  · simp [tmTimerStartOnce, startOnceUpdate_eq m D2 f pre t post hpre ht]
  · intro c
    simp [timerFires, ha]
  · simp [timerFires, ha, sub32_mod_add t.start_time D2 hs hD]

/-- Witness for C4: an active timer armed at clock 5 with old delay 3,
re-armed at clock 9 with delay 4; its delay is overwritten, its start
time stays 5, and it fires at clock 9 = 5 + 4. -/
theorem startOnce_rearm_witness :
    (7 : Nat) ≠ 0 ∧
    (∀ u ∈ ([] : List OneShotTimer), u.callback ≠ 7) ∧
    (⟨true, 5, 3, 7⟩ : OneShotTimer).callback = 7 ∧
    (⟨true, 5, 3, 7⟩ : OneShotTimer).start_time < U32 ∧
    (4 : Nat) < U32 ∧
    ((tmTimerStartOnce 9 4 7 ([] ++ (⟨true, 5, 3, 7⟩ : OneShotTimer) :: []) =
       (0, [] ++ (if (⟨true, 5, 3, 7⟩ : OneShotTimer).active
                  then { (⟨true, 5, 3, 7⟩ : OneShotTimer) with delay := 4 }
                  else { (⟨true, 5, 3, 7⟩ : OneShotTimer) with
                           delay := 4, active := true, start_time := 9 }) :: [])) ∧
     ((⟨true, 5, 3, 7⟩ : OneShotTimer).active = true →
       (∀ c, timerFires c { (⟨true, 5, 3, 7⟩ : OneShotTimer) with delay := 4 } =
          decide (sub32 c (⟨true, 5, 3, 7⟩ : OneShotTimer).start_time ≥ 4)) ∧
       timerFires (((⟨true, 5, 3, 7⟩ : OneShotTimer).start_time + 4) % U32)
         { (⟨true, 5, 3, 7⟩ : OneShotTimer) with delay := 4 } = true)) :=
  ⟨by decide, by decide, rfl, by norm_num [U32], by norm_num [U32],
   startOnce_rearm 9 4 7 [] [] ⟨true, 5, 3, 7⟩ (by decide) (by decide) rfl
     (by norm_num [U32]) (by norm_num [U32])⟩

/-- C2 counterexample: StartOnce(D = 1, f = 1) on a fresh scheduler at
clock 0, followed by exactly D = 1 `tmTick` call, invokes `f` zero times
— not exactly once as the claim states.  The invocation happens on the
second tick: `tmTimerProcess` runs before `millis++`, so the comparison
on tick `k` sees an elapsed time of `k - 1`. -/
theorem startOnce_fire_ce :
    (tickN 1 ⟨emptyTasks, (tmTimerStartOnce 0 1 1 emptyTimers).2, 0, false⟩).2 = [] ∧
    (tickN 2 ⟨emptyTasks, (tmTimerStartOnce 0 1 1 emptyTimers).2, 0, false⟩).2 = [1] := by
  decide

/-- C2 amended: for a delay `D ≥ 1` and non-null callback `f` installed
into a fresh timer slot by StartOnce at clock `m`, the first `D` ticks
invoke nothing; the `(D+1)`-th tick invokes `f` exactly once, after which
the slot has `active = false` while still holding `f`; and any number of
further ticks without re-arming never invokes `f` again. -/
theorem startOnce_fire (m D f : Nat) (b : Bool)
    (hm : m < U32) (hD1 : 1 ≤ D) (hD : D < U32) (hf : f ≠ 0) :
    tmTimerStartOnce m D f emptyTimers =
      (0, (⟨true, m, D, f⟩ : OneShotTimer) :: List.replicate 4 emptyTimer) ∧
    (tickN D ⟨emptyTasks, (tmTimerStartOnce m D f emptyTimers).2, m, b⟩).2 = [] ∧
    (tickN (D + 1) ⟨emptyTasks, (tmTimerStartOnce m D f emptyTimers).2, m, b⟩).2 = [f] ∧
    (tickN (D + 1) ⟨emptyTasks, (tmTimerStartOnce m D f emptyTimers).2, m, b⟩).1.timers =
      (⟨false, m, D, f⟩ : OneShotTimer) :: List.replicate 4 emptyTimer ∧
    (∀ n, (tickN n (tickN (D + 1) ⟨emptyTasks, (tmTimerStartOnce m D f emptyTimers).2,
        m, b⟩).1).2 = []) := by
  have hso := startOnce_fresh m D f hf
  have harm : (tmTimerStartOnce m D f emptyTimers).2 =
      (⟨true, m, D, f⟩ : OneShotTimer) :: List.replicate 4 emptyTimer := by rw [hso]
  have hmm : (m + 0) % U32 = m := by
    rw [Nat.add_zero, Nat.mod_eq_of_lt hm]
  have hD0 := tickN_armed D 0 m D f b hm hD (by omega)
  rw [hmm, Nat.zero_add] at hD0
  have hDfull : tickN D ⟨emptyTasks,
      (⟨true, m, D, f⟩ : OneShotTimer) :: List.replicate 4 emptyTimer, m, b⟩ =
      (⟨emptyTasks, (⟨true, m, D, f⟩ : OneShotTimer) :: List.replicate 4 emptyTimer,
        (m + D) % U32, b⟩, []) := hD0
  have hfirestep := tick_armed_fire m D f b hm hD hf
  have hD1full : tickN (D + 1) ⟨emptyTasks,
      (⟨true, m, D, f⟩ : OneShotTimer) :: List.replicate 4 emptyTimer, m, b⟩ =
      (⟨emptyTasks, (⟨false, m, D, f⟩ : OneShotTimer) :: List.replicate 4 emptyTimer,
        ((m + D) % U32 + 1) % U32, b⟩, [f]) := by
    rw [tickN_add D 1, hDfull]
    simp only [tickN, hfirestep]
    simp
  have hinact : ∀ t ∈ (⟨false, m, D, f⟩ : OneShotTimer) :: List.replicate 4 emptyTimer,
      t.active = false := by
    intro t ht
    rcases List.mem_cons.mp ht with h | h
    · rw [h]
    · rw [List.eq_of_mem_replicate h]; rfl
  refine ⟨hso, ?_, ?_, ?_, ?_⟩
  · rw [harm, hDfull]
  · rw [harm, hD1full]
  · rw [harm, hD1full]
  · intro n
    rw [harm, hD1full]
    exact (tickN_inactive n _ hinact).1

/-- Witness for C2's amended theorem at `m = 0`, `D = 2`, `f = 1`. -/
theorem startOnce_fire_witness :
    (0 : Nat) < U32 ∧ (1 : Nat) ≤ 2 ∧ (2 : Nat) < U32 ∧ (1 : Nat) ≠ 0 ∧
    (tmTimerStartOnce 0 2 1 emptyTimers =
       (0, (⟨true, 0, 2, 1⟩ : OneShotTimer) :: List.replicate 4 emptyTimer) ∧
     (tickN 2 ⟨emptyTasks, (tmTimerStartOnce 0 2 1 emptyTimers).2, 0, false⟩).2 = [] ∧
     (tickN (2 + 1) ⟨emptyTasks, (tmTimerStartOnce 0 2 1 emptyTimers).2, 0, false⟩).2 = [1] ∧
     (tickN (2 + 1) ⟨emptyTasks, (tmTimerStartOnce 0 2 1 emptyTimers).2, 0,
         false⟩).1.timers =
       (⟨false, 0, 2, 1⟩ : OneShotTimer) :: List.replicate 4 emptyTimer ∧
     (∀ n, (tickN n (tickN (2 + 1) ⟨emptyTasks, (tmTimerStartOnce 0 2 1 emptyTimers).2, 0,
         false⟩).1).2 = [])) :=
  ⟨by norm_num [U32], by norm_num, by norm_num [U32], by norm_num,
   startOnce_fire 0 2 1 false (by norm_num [U32]) (by norm_num) (by norm_num [U32])
     (by norm_num)⟩

lemma map_tick_replicate (n : Nat) :
    List.map tickTask (List.replicate n emptyTask) = List.replicate n emptyTask := by
  rw [List.map_replicate, tickTask_emptyTask]

lemma updateSlots_cons (t : Task) (rest : List Task) :
    updateSlots (t :: rest) =
      (if t.taskFunc ≠ 0 ∧ t.isReady then
        ({ t with isReady := false } :: (updateSlots rest).1, t.taskFunc :: (updateSlots rest).2)
       else (t :: (updateSlots rest).1, (updateSlots rest).2)) := rfl

lemma updateSlots_replicate (n : Nat) :
    updateSlots (List.replicate n emptyTask) = (List.replicate n emptyTask, []) := by
  induction n with
  | zero => rfl
  | succ n ih =>
    rw [List.replicate_succ, updateSlots_cons, ih]
    rw [if_neg (by decide)]

lemma tick_single (f N d m : Nat) (r b : Bool) (hf : f ≠ 0) (hd : 2 ≤ d) :
    tmTick ⟨(⟨f, N, d, r⟩ : Task) :: List.replicate 9 emptyTask, emptyTimers, m, b⟩ =
      (⟨(⟨f, N, d - 1, r⟩ : Task) :: List.replicate 9 emptyTask, emptyTimers,
        (m + 1) % U32, b⟩, []) := by
  have h1 : 0 < d := by omega
  have h2 : ¬(d - 1 = 0) := by omega
  have htick : tickTask ⟨f, N, d, r⟩ = ⟨f, N, d - 1, r⟩ := by
    simp [tickTask, hf, h1, h2]
  simp only [tmTick]
  rw [List.map_cons, htick, map_tick_replicate, tmTimerProcess_emptyTimers]

lemma tick_single_fire (f N m : Nat) (r b : Bool) (hf : f ≠ 0) :
    tmTick ⟨(⟨f, N, 1, r⟩ : Task) :: List.replicate 9 emptyTask, emptyTimers, m, b⟩ =
      (⟨(⟨f, N, N, true⟩ : Task) :: List.replicate 9 emptyTask, emptyTimers,
        (m + 1) % U32, b⟩, []) := by
  have htick : tickTask ⟨f, N, 1, r⟩ = ⟨f, N, N, true⟩ := by
    simp [tickTask, hf]
  simp only [tmTick]
  rw [List.map_cons, htick, map_tick_replicate, tmTimerProcess_emptyTimers]

lemma tickN_single (k f N d m : Nat) (r b : Bool) (hf : f ≠ 0) (hm : m < U32)
    (hk : k < d) :
    tickN k ⟨(⟨f, N, d, r⟩ : Task) :: List.replicate 9 emptyTask, emptyTimers, m, b⟩ =
      (⟨(⟨f, N, d - k, r⟩ : Task) :: List.replicate 9 emptyTask, emptyTimers,
        (m + k) % U32, b⟩, []) := by
  induction k generalizing d m with
  | zero => simp [tickN, Nat.mod_eq_of_lt hm]
  | succ k ih =>
    have hstep := tick_single f N d m r b hf (by omega)
    simp only [tickN, hstep]
    have hmu : (m + 1) % U32 < U32 := Nat.mod_lt _ (by norm_num [U32])
    have ihs := ih (d - 1) ((m + 1) % U32) hmu (by omega)
    rw [ihs]
    have h1 : d - 1 - k = d - (k + 1) := by omega
    have h2 : ((m + 1) % U32 + k) % U32 = (m + (k + 1)) % U32 := by
      rw [Nat.mod_add_mod]
      have : m + 1 + k = m + (k + 1) := by omega
      rw [this]
    rw [h1, h2]
    simp

lemma tickN_single_fire (f N d m : Nat) (r b : Bool) (hf : f ≠ 0) (hm : m < U32)
    (hd : 1 ≤ d) :
    tickN d ⟨(⟨f, N, d, r⟩ : Task) :: List.replicate 9 emptyTask, emptyTimers, m, b⟩ =
      (⟨(⟨f, N, N, true⟩ : Task) :: List.replicate 9 emptyTask, emptyTimers,
        (m + d) % U32, b⟩, []) := by
  obtain ⟨e, rfl⟩ : ∃ e, d = e + 1 := ⟨d - 1, by omega⟩
  rw [tickN_add e 1]
  have h1 := tickN_single e f N (e + 1) m r b hf hm (by omega)
  rw [h1]
  have hsub : e + 1 - e = 1 := by omega
  rw [hsub]
  have hmu : (m + e) % U32 < U32 := Nat.mod_lt _ (by norm_num [U32])
  have hfirestep := tick_single_fire f N ((m + e) % U32) r b hf
  simp only [tickN, hfirestep]
  have hmil : ((m + e) % U32 + 1) % U32 = (m + (e + 1)) % U32 := by
    rw [Nat.mod_add_mod, Nat.add_assoc]
  rw [hmil]
  simp

lemma update_single_ready (f N d m : Nat) (b : Bool) (hf : f ≠ 0) :
    tmUpdate ⟨(⟨f, N, d, true⟩ : Task) :: List.replicate 9 emptyTask, emptyTimers, m, b⟩ =
      (⟨(⟨f, N, d, false⟩ : Task) :: List.replicate 9 emptyTask, emptyTimers, m, true⟩,
       [f], false) := by
  have hrep := updateSlots_replicate 9
  have hc : ((⟨f, N, d, true⟩ : Task).taskFunc ≠ 0 ∧
      (⟨f, N, d, true⟩ : Task).isReady = true) := ⟨hf, rfl⟩
  simp only [tmUpdate, updateSlots_cons]
  rw [hrep]
  simp [hf]

/-- C3: a task added by `tmAddTask f N` (N ≥ 1, f non-null) into the
empty table is installed with countdown `N` and not ready; it is not
ready after any `k < N` ticks, becomes ready (with the countdown
reloaded to `N`) after exactly `N` ticks, is consumed by the next
`tmUpdate` — which clears `ready` and invokes `f` exactly once — and
becomes ready again after another `N` ticks in total, independent of the
point `j` (ticks after readiness) at which that `tmUpdate` ran. -/
theorem periodic_task_period (N f m j : Nat) (b : Bool) (hN : 1 ≤ N) (hNU : N < U32)
    (hf : f ≠ 0) (hm : m < U32) (hj : j < N) :
    tmAddTask f N emptyTasks =
      (0, (⟨f, N, N, false⟩ : Task) :: List.replicate 9 emptyTask) ∧
    (∀ k, k < N →
      (tickN k ⟨(tmAddTask f N emptyTasks).2, emptyTimers, m, b⟩).1.tasks =
        (⟨f, N, N - k, false⟩ : Task) :: List.replicate 9 emptyTask) ∧
    (tickN N ⟨(tmAddTask f N emptyTasks).2, emptyTimers, m, b⟩).1 =
      ⟨(⟨f, N, N, true⟩ : Task) :: List.replicate 9 emptyTask, emptyTimers,
        (m + N) % U32, b⟩ ∧
    tmUpdate (tickN j (tickN N ⟨(tmAddTask f N emptyTasks).2, emptyTimers, m, b⟩).1).1 =
      (⟨(⟨f, N, N - j, false⟩ : Task) :: List.replicate 9 emptyTask, emptyTimers,
        ((m + N) % U32 + j) % U32, true⟩, [f], false) ∧
    (tickN (N - j) (tmUpdate (tickN j (tickN N ⟨(tmAddTask f N emptyTasks).2, emptyTimers,
        m, b⟩).1).1).1).1.tasks =
      (⟨f, N, N, true⟩ : Task) :: List.replicate 9 emptyTask := by
  have hadd : tmAddTask f N emptyTasks =
      (0, (⟨f, N, N, false⟩ : Task) :: List.replicate 9 emptyTask) := by
    have hsplit : emptyTasks = [] ++ emptyTask :: List.replicate 9 emptyTask := rfl
    rw [hsplit]
    simp only [tmAddTask]
    rw [addTaskAux_eq f N [] emptyTask (List.replicate 9 emptyTask) (by simp) rfl]
    simp
  have htasks2 : (tmAddTask f N emptyTasks).2 =
      (⟨f, N, N, false⟩ : Task) :: List.replicate 9 emptyTask := by rw [hadd]
  have hmN : (m + N) % U32 < U32 := Nat.mod_lt _ (by norm_num [U32])
  have hmNj : ((m + N) % U32 + j) % U32 < U32 := Nat.mod_lt _ (by norm_num [U32])
  have h1 := tickN_single_fire f N N m false b hf hm hN
  have h2 := tickN_single j f N N ((m + N) % U32) true b hf hmN hj
  have h3 := update_single_ready f N (N - j) (((m + N) % U32 + j) % U32) b hf
  have h4 := tickN_single_fire f N (N - j) (((m + N) % U32 + j) % U32) false true hf hmNj
    (by omega)
  refine ⟨hadd, ?_, ?_, ?_, ?_⟩
  · intro k hk
    rw [htasks2, tickN_single k f N N m false b hf hm hk]
  · rw [htasks2, h1]
  · rw [htasks2, h1]
    exact h2 ▸ h3
  · rw [htasks2, h1]
    have e2 : (tickN j ⟨(⟨f, N, N, true⟩ : Task) :: List.replicate 9 emptyTask,
        emptyTimers, (m + N) % U32, b⟩).1 =
        ⟨(⟨f, N, N - j, true⟩ : Task) :: List.replicate 9 emptyTask, emptyTimers,
          ((m + N) % U32 + j) % U32, b⟩ := by rw [h2]
    rw [e2]
    have e3 : (tmUpdate ⟨(⟨f, N, N - j, true⟩ : Task) :: List.replicate 9 emptyTask,
        emptyTimers, ((m + N) % U32 + j) % U32, b⟩).1 =
        ⟨(⟨f, N, N - j, false⟩ : Task) :: List.replicate 9 emptyTask, emptyTimers,
          ((m + N) % U32 + j) % U32, true⟩ := by rw [h3]
    rw [e3, h4]

/-- Witness for C3 at `N = 2`, `f = 1`, `m = 0`, `j = 1`. -/
theorem periodic_task_period_witness :
    (1 : Nat) ≤ 2 ∧ (2 : Nat) < U32 ∧ (1 : Nat) ≠ 0 ∧ (0 : Nat) < U32 ∧ (1 : Nat) < 2 ∧
    (tmAddTask 1 2 emptyTasks =
       (0, (⟨1, 2, 2, false⟩ : Task) :: List.replicate 9 emptyTask) ∧
     (∀ k, k < 2 →
       (tickN k ⟨(tmAddTask 1 2 emptyTasks).2, emptyTimers, 0, false⟩).1.tasks =
         (⟨1, 2, 2 - k, false⟩ : Task) :: List.replicate 9 emptyTask) ∧
     (tickN 2 ⟨(tmAddTask 1 2 emptyTasks).2, emptyTimers, 0, false⟩).1 =
       ⟨(⟨1, 2, 2, true⟩ : Task) :: List.replicate 9 emptyTask, emptyTimers,
         (0 + 2) % U32, false⟩ ∧
     tmUpdate (tickN 1 (tickN 2 ⟨(tmAddTask 1 2 emptyTasks).2, emptyTimers, 0,
         false⟩).1).1 =
       (⟨(⟨1, 2, 2 - 1, false⟩ : Task) :: List.replicate 9 emptyTask, emptyTimers,
         ((0 + 2) % U32 + 1) % U32, true⟩, [1], false) ∧
     (tickN (2 - 1) (tmUpdate (tickN 1 (tickN 2 ⟨(tmAddTask 1 2 emptyTasks).2,
         emptyTimers, 0, false⟩).1).1).1).1.tasks =
       (⟨1, 2, 2, true⟩ : Task) :: List.replicate 9 emptyTask) :=
  ⟨by norm_num, by norm_num [U32], by norm_num, by norm_num [U32], by norm_num,
   periodic_task_period 2 1 0 1 false (by norm_num) (by norm_num [U32]) (by norm_num)
     (by norm_num [U32]) (by norm_num)⟩

end Taskman
